import Mathlib

/-!
Verification of the LLM orchestration core of an assignment-grading backend
(`backend/services/gemini_service.py`): the retry/backoff wrapper
`_call_gemini_core` around a remote structured-generation call, and the
three-call majority-vote consensus in `evaluate_one_qa`.

The Python code is shallowly embedded:
  * scores (`is_correct` / `partial_credit` floats, which here only ever take
    values exactly representable and compared with `==`) are modelled as `ℚ`;
  * the remote SDK call is an oracle `Nat → AttemptResult` giving, for each
    attempt index, either the raw response text or the raised exception;
  * `collections.Counter(votes).most_common(1)[0]` is modelled by
    `mostCommon1`: CPython dicts preserve insertion order (so `Counter` keys
    appear in order of first appearance in `votes`), and
    `most_common(1)` reduces to `max(items, key=count)`, which keeps the
    first-encountered key among count ties; `counterKeys` builds the keys in
    first-appearance order and the fold in `mostCommon1` replaces the current
    best only on strictly greater count;
  * the effectful retry loop returns, besides its result, a `CallTrace`
    recording how many SDK invocations happened and the backoff sleeps.
-/

/-- Error taxonomy of `_call_gemini_core`: the `type` field of the error dict. -/
inductive ErrorType where
  | CONFIG_ERROR
  | PARSE_ERROR
  | LLM_UNAVAILABLE
deriving DecidableEq, Repr

/-- The `error` dict of a failed outcome: type, message, optional status code, raw diagnostic. -/
structure ErrorInfo where
  type : ErrorType
  message : String
  status_code : Option Nat
  raw : String
deriving DecidableEq, Repr

/-- The standardized return dict of `_call_gemini_core` and `evaluate_one_qa`:
`{"success": True, "response": ...}` or `{"success": False, "error": ...}`. -/
inductive CoreResult (α : Type) where
  | success (response : α)
  | failure (error : ErrorInfo)
deriving DecidableEq, Repr

/-- A transport/server exception raised by the SDK call: its native
`status_code` attribute (absent when the exception carries none) and `str(e)`. -/
structure GeminiException where
  status_code : Option Nat
  msg : String
deriving DecidableEq, Repr

/-- What one invocation of `client.models.generate_content` does: return raw
text (`response.text or ""`) or raise. -/
inductive AttemptResult where
  | ok (raw_text : String)
  | exn (e : GeminiException)
deriving DecidableEq, Repr

/-- Module constant `MAX_LLM_RETRIES = 3`. -/
def MAX_LLM_RETRIES : Nat := 3

/-- Set of retryable codes, `[429, 500, 502, 503, 504]`. -/
def retryable_codes : List Nat := [429, 500, 502, 503, 504]

/-- Message fragments that mark an error as transient. -/
def retry_strings : List String :=
  ["overloaded", "timeout", "deadline", "connection", "rate limit", "busy"]

/-- Character-wise lowercasing of a Python string (`str.lower()`; the error
messages involved are ASCII, where the two agree). -/
def strLower (s : String) : String :=
  ⟨s.data.map Char.toLower⟩

/-- Scans a character list for an occurrence of `needle` starting at any suffix. -/
def charsContain (hay needle : List Char) : Bool :=
  match hay with
  | [] => needle.isEmpty
  | _ :: t => needle.isPrefixOf hay || charsContain t needle

/-- Substring containment, `needle in hay` on Python strings. -/
def strContains (hay needle : String) : Bool :=
  charsContain hay.data needle.data

/-- Status-code extraction of the except-branch: take the native
`status_code` if present, else scan `str(e)` for the first of the literal
codes `429, 500, 502, 503, 504` (in that list order) occurring in the message. -/
def inferStatus (e : GeminiException) : Option Nat :=
  match e.status_code with
  | some c => some c
  | none => retryable_codes.find? (fun c => strContains e.msg (toString c))

/-- Embeds `is_retryable = (last_status_code in retryable_codes) or
any(s in last_error_msg.lower() for s in retry_strings)`. -/
def is_retryable (last_status_code : Option Nat) (last_error_msg : String) : Bool :=
  (match last_status_code with
   | some c => retryable_codes.contains c
   | none => false)
  || retry_strings.any (fun s => strContains (strLower last_error_msg) s)

/-- Payload of a successful outcome: the parsed object when a response schema
was supplied, else the raw text. -/
inductive Response (α : Type) where
  | parsed (data : α)
  | raw (raw_text : String)
deriving DecidableEq, Repr

/-- Observable effects of one `_call_gemini_core` run: number of SDK
invocations and the backoff sleeps (`await asyncio.sleep(delay)`), in order. -/
structure CallTrace where
  calls : Nat
  sleeps : List Nat
deriving DecidableEq, Repr

/-- The `while attempt <= self.max_retries` loop of `_call_gemini_core`.
`fuel` is the number of loop iterations the `while` condition still permits,
i.e. `max_retries + 1 - attempt`; it reaches `0` exactly when the condition
fails, which lands on the trailing return (`LLM service exceeded maximum
retry attempts`, unreachable from `attempt = 0`). Each iteration performs the
SDK call through `oracle attempt`; a retryable failure with attempts left
sleeps `2 ^ attempt` seconds and continues with `attempt + 1`. -/
def coreLoop (response_schema : Option (String → Except String α))
    (operation_name : String) (oracle : Nat → AttemptResult) (max_retries : Nat) :
    Nat → Nat → String → Option Nat → CoreResult (Response α) × CallTrace
  | 0, _, last_error_msg, last_status_code =>
      (.failure ⟨.LLM_UNAVAILABLE, "LLM service exceeded maximum retry attempts.",
        last_status_code, last_error_msg⟩, ⟨0, []⟩)
  | fuel + 1, attempt, _, _ =>
      match oracle attempt with
      | .ok raw_text =>
          match response_schema with
          | some parse =>
              match parse raw_text with
              | .ok data => (.success (.parsed data), ⟨1, []⟩)
              | .error parse_err =>
                  (.failure ⟨.PARSE_ERROR,
                    "Failed to parse structured output from " ++ operation_name,
                    some 200, parse_err⟩, ⟨1, []⟩)
          | none => (.success (.raw raw_text), ⟨1, []⟩)
      | .exn e =>
          let last_error_msg := e.msg
          let last_status_code := inferStatus e
          if is_retryable last_status_code last_error_msg ∧ attempt < max_retries then
            let delay := 2 ^ attempt
            let rest := coreLoop response_schema operation_name oracle max_retries
              fuel (attempt + 1) last_error_msg last_status_code
            (rest.1, ⟨rest.2.calls + 1, delay :: rest.2.sleeps⟩)
          else
            (.failure ⟨.LLM_UNAVAILABLE,
              "LLM service unavailable after retries (e.g., 503 Model overloaded). Please try again later.",
              last_status_code, last_error_msg⟩, ⟨1, []⟩)

/-- Embeds `_call_gemini_core`: if no client is configured (missing credential),
return `CONFIG_ERROR` with zero SDK calls; else run the retry loop from
`attempt = 0` with `last_error_msg = ""`, `last_status_code = None`. -/
def call_gemini_core (clientConfigured : Bool) (max_retries : Nat)
    (response_schema : Option (String → Except String α)) (operation_name : String)
    (oracle : Nat → AttemptResult) : CoreResult (Response α) × CallTrace :=
  if clientConfigured then
    coreLoop response_schema operation_name oracle max_retries (max_retries + 1) 0 "" none
  else
    (.failure ⟨.CONFIG_ERROR, "Gemini API key is missing", none, "Client not initialized"⟩,
      ⟨0, []⟩)

/-- The `EvalDetail` pydantic model (fields relevant to voting; the schema
constrains `partial_credit` to `0.0 ≤ x ≤ 1.0` when present). -/
structure EvalDetail where
  question : String
  student_answer : String
  correct_answer : String
  is_correct : Bool
  partial_credit : Option ℚ
  feedback : String
deriving DecidableEq, Repr

/-- The per-response vote bucket of the consensus loop:
`1.0` if `resp.is_correct`, else `float(resp.partial_credit)` when present,
else `0.0` (no normalization is applied to `partial_credit`). -/
def voteOf (resp : EvalDetail) : ℚ :=
  if resp.is_correct then 1
  else
    match resp.partial_credit with
    | some pc => pc
    | none => 0

/-- Python dict-key accumulation: append a vote as a new key unless already present.
`Counter` keys appear in insertion order, i.e. first-appearance order. -/
def insertKey (acc : List ℚ) (v : ℚ) : List ℚ :=
  if acc.contains v then acc else acc ++ [v]

/-- The keys of `Counter(votes)` in first-appearance order. -/
def counterKeys (votes : List ℚ) : List ℚ :=
  votes.foldl insertKey []

/-- The left-to-right maximum used by the CPython builtin max with a count key:
a later candidate replaces the current best only when its count in `votes`
is strictly greater, so the first maximal element is kept. -/
def maxByCount (votes : List ℚ) (best : ℚ) : List ℚ → ℚ
  | [] => best
  | v :: ks => maxByCount votes (if votes.count v > votes.count best then v else best) ks

/-- Embeds the expression `Counter(votes).most_common(1)[0][0]`: among the counter keys (in
first-appearance order), the one with maximal count, ties kept on the
earlier key. `none` iff `votes` is empty. -/
def mostCommon1 (votes : List ℚ) : Option ℚ :=
  match counterKeys votes with
  | [] => none
  | k :: ks => some (maxByCount votes k ks)

/-- The successful responses among the gathered results, in invocation order:
`valid_responses = [r["response"] for r in results if r["success"] and "response" in r]`. -/
def validResponses (results : List (CoreResult EvalDetail)) : List EvalDetail :=
  results.filterMap (fun r =>
    match r with
    | .success resp => some resp
    | .failure _ => none)

/-- The consensus block of `evaluate_one_qa` after `asyncio.gather` returned
the three results `r1, r2, r3` (in invocation order): if no call succeeded,
return `results[0]`; else tally the votes, take the most common score, and
return the first successful response whose (recomputed) score equals the
winner. The two trailing fallbacks (`mostCommon1 = none`, and the loop
finding no match) mirror spots where the Python code would fault or hit its
"should never happen" fallback; both are proved unreachable below. -/
def consensusVote (r1 r2 r3 : CoreResult EvalDetail) : CoreResult EvalDetail :=
  let results := [r1, r2, r3]
  match validResponses results with
  | [] => r1
  | v :: vs =>
      let valid_responses := v :: vs
      let votes := valid_responses.map voteOf
      match mostCommon1 votes with
      | none => .success v
      | some winner_score =>
          match valid_responses.find? (fun resp => voteOf resp = winner_score) with
          | some resp => .success resp
          | none => .success v

/-- The mutable service state touched by `evaluate_one_qa`: the shared
default model identifier `self.model`. -/
structure GeminiService where
  api_key : String
  model : String
  max_retries : Nat
deriving DecidableEq, Repr

/-- Pinned, stable evaluation model: `model_to_use = "gemini-2.5-pro"`. -/
def model_to_use : String := "gemini-2.5-pro"

/-- Embeds `evaluate_one_qa`: save `original_model = self.model`, override
`self.model = model_to_use`, run the consensus block (the `gathered`
argument receives the overridden state and yields either the three call
results or, as `.error`, an exception propagating out of the block), and in
all cases — success, all-failed, or exception — restore `self.model` via the
`finally` clause. Returns the outcome (or propagated exception) together
with the service state after the `finally`. -/
def evaluate_one_qa (ε : Type) (svc : GeminiService)
    (gathered : GeminiService →
      Except ε (CoreResult EvalDetail × CoreResult EvalDetail × CoreResult EvalDetail)) :
    Except ε (CoreResult EvalDetail) × GeminiService :=
  let original_model := svc.model
  let svcPinned : GeminiService := { svc with model := model_to_use }
  let outcome : Except ε (CoreResult EvalDetail) :=
    match gathered svcPinned with
    | .error e => .error e
    | .ok (r1, r2, r3) => .ok (consensusVote r1 r2 r3)
  (outcome, { svcPinned with model := original_model })

/-! ### Sample data for concrete witnesses -/

/-- Sample correct response (vote bucket 1.0). -/
def respCorrectA : EvalDetail := ⟨"q", "a", "c", true, none, "feedback A"⟩

/-- Sample correct response with an unused partial-credit field (vote bucket 1.0). -/
def respCorrectB : EvalDetail := ⟨"q", "a", "c", true, some 0, "feedback B"⟩

/-- Sample incorrect response without partial credit (vote bucket 0.0). -/
def respWrongC : EvalDetail := ⟨"q", "a", "c", false, none, "feedback C"⟩

/-- Sample partially correct response (vote bucket 0.5). -/
def respHalfD : EvalDetail := ⟨"q", "a", "c", false, some (1/2), "feedback D"⟩

/-- Sample exception with native status 503. -/
def exn503 : GeminiException := ⟨some 503, "503 UNAVAILABLE"⟩

/-- Sample exception with native status 400 and a non-transient message. -/
def exn400 : GeminiException := ⟨some 400, "400 INVALID_ARGUMENT"⟩

/-- Sample schema validator: accepts exactly the payload "good". -/
def sampleParse : String → Except String EvalDetail :=
  fun s => if s = "good" then .ok respCorrectA else .error "schema mismatch"

/-- Sample SDK behaviour: 503 failures on the first two attempts, then success. -/
def sampleOracle503 : Nat → AttemptResult :=
  fun n =>
    match n with
    | 0 => .exn exn503
    | 1 => .exn exn503
    | _ => .ok "good"

/-- Sample SDK behaviour: a malformed-but-transport-successful payload. -/
def sampleOracleJunk : Nat → AttemptResult := fun _ => .ok "junk"

/-! ### Helper lemmas about the vote counter -/

theorem mem_insertKey {acc : List ℚ} {x v : ℚ} :
    v ∈ insertKey acc x ↔ v ∈ acc ∨ v = x := by
  unfold insertKey
  by_cases h : acc.contains x
  · rw [if_pos h]
    have hx : x ∈ acc := by
      simpa using h
    constructor
    · exact Or.inl
    · rintro (hv | rfl)
      · exact hv
      · exact hx
  · rw [if_neg h]
    simp [List.mem_append]

theorem mem_foldl_insertKey (l : List ℚ) :
    ∀ (acc : List ℚ) (v : ℚ), v ∈ l.foldl insertKey acc ↔ v ∈ acc ∨ v ∈ l := by
  induction l with
  | nil => simp
  | cons x xs ih =>
      intro acc v
      rw [List.foldl_cons, ih, mem_insertKey]
      constructor
      · rintro ((hv | rfl) | hv)
        · exact Or.inl hv
        · exact Or.inr (List.mem_cons_self _ _)
        · exact Or.inr (List.mem_cons_of_mem _ hv)
      · rintro (hv | hv)
        · exact Or.inl (Or.inl hv)
        · rcases List.mem_cons.mp hv with rfl | hv
          · exact Or.inl (Or.inr rfl)
          · exact Or.inr hv

theorem mem_counterKeys {votes : List ℚ} {v : ℚ} :
    v ∈ counterKeys votes ↔ v ∈ votes := by
  unfold counterKeys
  rw [mem_foldl_insertKey]
  simp

theorem counterKeys_ne_nil {votes : List ℚ} (h : votes ≠ []) :
    counterKeys votes ≠ [] := by
  obtain ⟨x, xs, rfl⟩ := List.exists_cons_of_ne_nil h
  intro hk
  have : x ∈ counterKeys (x :: xs) := mem_counterKeys.mpr (List.mem_cons_self x xs)
  rw [hk] at this
  exact List.not_mem_nil x this

/-! ### Helper lemmas about the first-maximum fold -/

theorem maxByCount_mem (votes : List ℚ) :
    ∀ (ks : List ℚ) (best : ℚ), maxByCount votes best ks = best ∨ maxByCount votes best ks ∈ ks := by
  intro ks
  induction ks with
  | nil => intro best; exact Or.inl rfl
  | cons v ks ih =>
      intro best
      rw [maxByCount]
      by_cases h : votes.count v > votes.count best
      · rw [if_pos h]
        rcases ih v with h1 | h1
        · exact Or.inr (by rw [h1]; exact List.mem_cons_self v ks)
        · exact Or.inr (List.mem_cons_of_mem v h1)
      · rw [if_neg h]
        rcases ih best with h1 | h1
        · exact Or.inl h1
        · exact Or.inr (List.mem_cons_of_mem v h1)

theorem count_best_le_maxByCount (votes : List ℚ) :
    ∀ (ks : List ℚ) (best : ℚ),
      votes.count best ≤ votes.count (maxByCount votes best ks) := by
  intro ks
  induction ks with
  | nil => intro best; exact le_refl _
  | cons v ks ih =>
      intro best
      rw [maxByCount]
      by_cases h : votes.count v > votes.count best
      · rw [if_pos h]
        exact le_trans (le_of_lt h) (ih v)
      · rw [if_neg h]
        exact ih best

theorem count_le_maxByCount_of_mem (votes : List ℚ) :
    ∀ (ks : List ℚ) (best v : ℚ), v ∈ ks →
      votes.count v ≤ votes.count (maxByCount votes best ks) := by
  intro ks
  induction ks with
  | nil => intro best v hv; exact absurd hv (List.not_mem_nil v)
  | cons x ks ih =>
      intro best v hv
      rw [maxByCount]
      rcases List.mem_cons.mp hv with rfl | hv
      · by_cases h : votes.count v > votes.count best
        · rw [if_pos h]
          exact count_best_le_maxByCount votes ks v
        · rw [if_neg h]
          exact le_trans (not_lt.mp h) (count_best_le_maxByCount votes ks best)
      · by_cases h : votes.count x > votes.count best
        · rw [if_pos h]; exact ih x v hv
        · rw [if_neg h]; exact ih best v hv

theorem maxByCount_first (votes : List ℚ) :
    ∀ (ks : List ℚ) (best : ℚ),
      ∃ pre post, best :: ks = pre ++ maxByCount votes best ks :: post ∧
        ∀ x ∈ pre, votes.count x < votes.count (maxByCount votes best ks) := by
  intro ks
  induction ks with
  | nil =>
      intro best
      exact ⟨[], [], rfl, by simp⟩
  | cons v ks ih =>
      intro best
      rw [maxByCount]
      by_cases h : votes.count v > votes.count best
      · rw [if_pos h]
        obtain ⟨pre, post, heq, hlt⟩ := ih v
        refine ⟨best :: pre, post, ?_, ?_⟩
        · rw [List.cons_append, ← heq]
        · intro x hx
          rcases List.mem_cons.mp hx with rfl | hx
          · exact lt_of_lt_of_le h (count_best_le_maxByCount votes ks v)
          · exact hlt x hx
      · rw [if_neg h]
        obtain ⟨pre, post, heq, hlt⟩ := ih best
        cases pre with
        | nil =>
            simp only [List.nil_append] at heq
            refine ⟨[], v :: ks, ?_, by simp⟩
            rw [List.nil_append]
            rw [List.cons.injEq] at heq
            rw [← heq.1]
        | cons p ps =>
            rw [List.cons_append, List.cons.injEq] at heq
            obtain ⟨rfl, hks⟩ := heq
            refine ⟨best :: v :: ps, post, ?_, ?_⟩
            · rw [List.cons_append, List.cons_append, ← hks]
            · intro x hx
              have hple : votes.count best < votes.count (maxByCount votes best ks) :=
                hlt best (List.mem_cons_self best ps)
              rcases List.mem_cons.mp hx with rfl | hx
              · exact hple
              · rcases List.mem_cons.mp hx with rfl | hx
                · exact lt_of_le_of_lt (not_lt.mp h) hple
                · exact hlt x (List.mem_cons_of_mem best hx)

/-! ### First-appearance order of the counter keys -/

theorem counterKeys_append_singleton (votes : List ℚ) (v : ℚ) :
    counterKeys (votes ++ [v]) = insertKey (counterKeys votes) v := by
  simp [counterKeys, List.foldl_append]

theorem counterKeys_pairwise (votes : List ℚ) :
    (counterKeys votes).Pairwise (fun x y => votes.indexOf x < votes.indexOf y) := by
  induction votes using List.reverseRecOn with
  | nil => simp [counterKeys]
  | append_singleton vs v ih =>
      rw [counterKeys_append_singleton]
      unfold insertKey
      by_cases h : (counterKeys vs).contains v
      · rw [if_pos h]
        refine List.Pairwise.imp_of_mem ?_ ih
        intro a b ha hb hab
        rw [List.indexOf_append_of_mem (mem_counterKeys.mp ha),
          List.indexOf_append_of_mem (mem_counterKeys.mp hb)]
        exact hab
      · rw [if_neg h]
        rw [List.pairwise_append]
        refine ⟨?_, List.pairwise_singleton _ v, ?_⟩
        · refine List.Pairwise.imp_of_mem ?_ ih
          intro a b ha hb hab
          rw [List.indexOf_append_of_mem (mem_counterKeys.mp ha),
            List.indexOf_append_of_mem (mem_counterKeys.mp hb)]
          exact hab
        · intro a ha b hb
          rw [List.mem_singleton] at hb
          subst hb
          have hav : a ∈ vs := mem_counterKeys.mp ha
          have hvv : b ∉ vs := fun hmem => h (by simpa using mem_counterKeys.mpr hmem)
          rw [List.indexOf_append_of_mem hav, List.indexOf_append_of_not_mem hvv]
          calc List.indexOf a vs < vs.length := List.indexOf_lt_length.mpr hav
            _ ≤ vs.length + List.indexOf b [b] := Nat.le_add_right _ _

/-! ### The specification of the majority winner -/

theorem mostCommon1_spec (votes : List ℚ) (h : votes ≠ []) :
    ∃ w, mostCommon1 votes = some w ∧ w ∈ votes ∧
      (∀ v ∈ votes, votes.count v ≤ votes.count w) ∧
      (∀ v ∈ votes, votes.count v = votes.count w →
        votes.indexOf w ≤ votes.indexOf v) := by
  have hk := counterKeys_ne_nil h
  unfold mostCommon1
  cases hck : counterKeys votes with
  | nil => exact absurd hck hk
  | cons k ks =>
      set w := maxByCount votes k ks with hw
      refine ⟨w, rfl, ?_, ?_, ?_⟩
      · have : w ∈ k :: ks := by
          rcases maxByCount_mem votes ks k with h1 | h1
          · exact h1 ▸ List.mem_cons_self k ks
          · exact List.mem_cons_of_mem k h1
        rw [← hck] at this
        exact mem_counterKeys.mp this
      · intro v hv
        have hvk : v ∈ k :: ks := by
          rw [← hck]
          exact mem_counterKeys.mpr hv
        rcases List.mem_cons.mp hvk with rfl | hvk
        · exact count_best_le_maxByCount votes ks v
        · exact count_le_maxByCount_of_mem votes ks k v hvk
      · intro v hv hcnt
        obtain ⟨pre, post, heq, hlt⟩ := maxByCount_first votes ks k
        have hvk : v ∈ pre ++ w :: post := by
          rw [← heq, ← hck]
          exact mem_counterKeys.mpr hv
        have hpw : (pre ++ w :: post).Pairwise
            (fun x y => votes.indexOf x < votes.indexOf y) := by
          rw [← heq, ← hck]
          exact counterKeys_pairwise votes
        rcases List.mem_append.mp hvk with hvpre | hvtail
        · exact absurd hcnt (ne_of_lt (hlt v hvpre))
        · rcases List.mem_cons.mp hvtail with rfl | hvpost
          · exact le_refl _
          · have := (List.pairwise_append.mp hpw).2.1
            exact le_of_lt ((List.pairwise_cons.mp this).1 v hvpost)

/-! ### Helper lemmas about the selection loop -/

theorem find?_eq_some_split {α : Type} {p : α → Bool} {l : List α} {a : α}
    (h : l.find? p = some a) :
    p a = true ∧ ∃ pre post, l = pre ++ a :: post ∧ ∀ x ∈ pre, p x = false := by
  induction l with
  | nil => simp [List.find?] at h
  | cons x xs ih =>
      rw [List.find?] at h
      cases hp : p x with
      | true =>
          rw [hp] at h
          injection h with h
          subst h
          exact ⟨hp, [], xs, rfl, by simp⟩
      | false =>
          rw [hp] at h
          obtain ⟨hpa, pre, post, heq, hpre⟩ := ih h
          refine ⟨hpa, x :: pre, post, by rw [List.cons_append, heq], ?_⟩
          intro y hy
          rcases List.mem_cons.mp hy with rfl | hy
          · exact hp
          · exact hpre y hy

theorem find?_eq_some_of_mem {α : Type} {p : α → Bool} {l : List α} {a : α}
    (ha : a ∈ l) (hpa : p a = true) : ∃ b, l.find? p = some b := by
  induction l with
  | nil => exact absurd ha (List.not_mem_nil a)
  | cons x xs ih =>
      rw [List.find?]
      cases hp : p x with
      | true => exact ⟨x, rfl⟩
      | false =>
          rcases List.mem_cons.mp ha with rfl | ha
          · exact absurd hpa (by rw [hp]; exact Bool.false_ne_true)
          · exact ih ha

/-! ### Claim theorems -/

/-- C5: for every request made while no credential is configured (the client
is not initialized), `_call_gemini_core` returns the `CONFIG_ERROR` failure
immediately and performs zero SDK call attempts and zero sleeps. -/
theorem C5_config_error_no_network {α : Type}
    (max_retries : Nat) (response_schema : Option (String → Except String α))
    (operation_name : String) (oracle : Nat → AttemptResult) :
    call_gemini_core false max_retries response_schema operation_name oracle =
      (.failure ⟨.CONFIG_ERROR, "Gemini API key is missing", none, "Client not initialized"⟩,
        ⟨0, []⟩) := rfl

/-- C6: when all three consensus calls fail, `evaluate_one_qa` returns the
failure outcome of the first attempted call verbatim — the same error record
(kind, message, status code, raw diagnostic) — and never synthesizes a result. -/
theorem C6_all_failed_returns_first (e1 e2 e3 : ErrorInfo) :
    consensusVote (.failure e1) (.failure e2) (.failure e3) = .failure e1 := rfl

/-- C7: the consensus winner is a deterministic function of the ordered vote
list: the code picks a vote value of maximal count, and among count ties the
one whose first appearance is earliest; these properties determine the winner
uniquely, so any two runs of the reduction on the same votes agree. -/
theorem C7_winner_deterministic_first_appearance (votes : List ℚ) (h : votes ≠ []) :
    ∃ w, mostCommon1 votes = some w ∧
      (w ∈ votes ∧
        (∀ v ∈ votes, votes.count v ≤ votes.count w) ∧
        (∀ v ∈ votes, votes.count v = votes.count w →
          votes.indexOf w ≤ votes.indexOf v)) ∧
      ∀ u, (u ∈ votes ∧
        (∀ v ∈ votes, votes.count v ≤ votes.count u) ∧
        (∀ v ∈ votes, votes.count v = votes.count u →
          votes.indexOf u ≤ votes.indexOf v)) → u = w := by
  obtain ⟨w, hw, hmem, hmax, htie⟩ := mostCommon1_spec votes h
  refine ⟨w, hw, ⟨hmem, hmax, htie⟩, ?_⟩
  rintro u ⟨humem, humax, hutie⟩
  have hcnt : votes.count u = votes.count w :=
    le_antisymm (hmax u humem) (humax w hmem)
  have h1 : votes.indexOf w ≤ votes.indexOf u := htie u humem hcnt
  have h2 : votes.indexOf u ≤ votes.indexOf w := hutie w hmem hcnt.symm
  exact (List.indexOf_inj humem hmem).mp (le_antisymm h2 h1)

/-- C7 witness: the vote list `[1.0, 0.5, 0.0]` is a three-way tie and the
policy selects the first-appearing bucket `1.0`. -/
theorem C7_winner_deterministic_first_appearance_witness :
    ([(1 : ℚ), 1/2, 0] ≠ []) ∧
    ∃ w, mostCommon1 [(1 : ℚ), 1/2, 0] = some w ∧
      (w ∈ [(1 : ℚ), 1/2, 0] ∧
        (∀ v ∈ [(1 : ℚ), 1/2, 0],
          List.count v [(1 : ℚ), 1/2, 0] ≤ List.count w [(1 : ℚ), 1/2, 0]) ∧
        (∀ v ∈ [(1 : ℚ), 1/2, 0],
          List.count v [(1 : ℚ), 1/2, 0] = List.count w [(1 : ℚ), 1/2, 0] →
          List.indexOf w [(1 : ℚ), 1/2, 0] ≤ List.indexOf v [(1 : ℚ), 1/2, 0])) ∧
      ∀ u, (u ∈ [(1 : ℚ), 1/2, 0] ∧
        (∀ v ∈ [(1 : ℚ), 1/2, 0],
          List.count v [(1 : ℚ), 1/2, 0] ≤ List.count u [(1 : ℚ), 1/2, 0]) ∧
        (∀ v ∈ [(1 : ℚ), 1/2, 0],
          List.count v [(1 : ℚ), 1/2, 0] = List.count u [(1 : ℚ), 1/2, 0] →
          List.indexOf u [(1 : ℚ), 1/2, 0] ≤ List.indexOf v [(1 : ℚ), 1/2, 0])) → u = w :=
  ⟨by decide, C7_winner_deterministic_first_appearance [(1 : ℚ), 1/2, 0] (by decide)⟩

/-- C1: whenever at least one of the three consensus calls succeeds,
`evaluate_one_qa` returns the first successful response (in invocation
order) whose own vote bucket equals the winning majority bucket, so the
chosen outcome carries exactly the majority vote value. -/
theorem C1_first_matching_winner (r1 r2 r3 : CoreResult EvalDetail)
    (h : validResponses [r1, r2, r3] ≠ []) :
    ∃ w resp pre post,
      mostCommon1 ((validResponses [r1, r2, r3]).map voteOf) = some w ∧
      consensusVote r1 r2 r3 = .success resp ∧
      voteOf resp = w ∧
      validResponses [r1, r2, r3] = pre ++ resp :: post ∧
      ∀ x ∈ pre, voteOf x ≠ w := by
  have hvotes : (validResponses [r1, r2, r3]).map voteOf ≠ [] := by
    obtain ⟨v, vs, hv⟩ := List.exists_cons_of_ne_nil h
    rw [hv]
    simp
  obtain ⟨w, hw, hwmem, hmax, htie⟩ := mostCommon1_spec _ hvotes
  obtain ⟨r0, hr0mem, hr0vote⟩ := List.mem_map.mp hwmem
  obtain ⟨resp, hresp⟩ :=
    find?_eq_some_of_mem (p := fun r => voteOf r = w) hr0mem (by simp [hr0vote])
  obtain ⟨hpresp, pre, post, heq, hpre⟩ := find?_eq_some_split hresp
  have hcv : consensusVote r1 r2 r3 = .success resp := by
    unfold consensusVote
    dsimp only
    split
    · next h0 => exact absurd h0 h
    · next v vs h0 =>
        rw [h0] at hw hresp
        split
        · next h1 => rw [hw] at h1; exact absurd h1 (by simp)
        · next ws h1 =>
            rw [hw] at h1
            injection h1 with h1
            subst h1
            split
            · next respX h2 =>
                rw [hresp] at h2
                injection h2 with h2
                rw [h2]
            · next h2 => rw [hresp] at h2; exact absurd h2 (by simp)
  refine ⟨w, resp, pre, post, hw, hcv, by simpa using hpresp, heq, ?_⟩
  intro x hx
  simpa using hpre x hx

/-- C10: whenever at least one of the three consensus calls succeeds, the
winner-selection loop always finds a matching response — the winning bucket
is one of the very votes computed from the successful responses — so the
result is a success carrying one of the successful responses, and the
trailing fallback branch is unreachable. -/
theorem C10_fallback_unreachable (r1 r2 r3 : CoreResult EvalDetail)
    (h : validResponses [r1, r2, r3] ≠ []) :
    ∃ w resp,
      mostCommon1 ((validResponses [r1, r2, r3]).map voteOf) = some w ∧
      (validResponses [r1, r2, r3]).find? (fun r => voteOf r = w) = some resp ∧
      consensusVote r1 r2 r3 = .success resp ∧
      resp ∈ validResponses [r1, r2, r3] := by
  obtain ⟨w, resp, pre, post, hw, hcv, hvw, heq, hpre⟩ :=
    C1_first_matching_winner r1 r2 r3 h
  refine ⟨w, resp, hw, ?_, hcv, ?_⟩
  · rw [heq]
    rw [List.find?_append]
    have h1 : pre.find? (fun r => voteOf r = w) = none := by
      rw [List.find?_eq_none]
      intro x hx
      simpa using hpre x hx
    rw [h1]
    simp [hvw]
  · rw [heq]
    exact List.mem_append_right pre (List.mem_cons_self resp post)

/-! ### Step lemmas for the retry loop -/

theorem coreLoop_retry_step {α : Type} (response_schema : Option (String → Except String α))
    (operation_name : String) (oracle : Nat → AttemptResult) (max_retries fuel attempt : Nat)
    (lm : String) (ls : Option Nat) (e : GeminiException)
    (ho : oracle attempt = .exn e)
    (hr : is_retryable (inferStatus e) e.msg = true)
    (ha : attempt < max_retries) :
    coreLoop response_schema operation_name oracle max_retries (fuel + 1) attempt lm ls =
      ((coreLoop response_schema operation_name oracle max_retries fuel (attempt + 1)
          e.msg (inferStatus e)).1,
        ⟨(coreLoop response_schema operation_name oracle max_retries fuel (attempt + 1)
            e.msg (inferStatus e)).2.calls + 1,
          2 ^ attempt :: (coreLoop response_schema operation_name oracle max_retries fuel
            (attempt + 1) e.msg (inferStatus e)).2.sleeps⟩) := by
  rw [coreLoop, ho]
  dsimp only
  rw [if_pos ⟨hr, ha⟩]

theorem coreLoop_ok_parsed_step {α : Type} (parse : String → Except String α)
    (operation_name : String) (oracle : Nat → AttemptResult) (max_retries fuel attempt : Nat)
    (lm : String) (ls : Option Nat) (raw : String) (d : α)
    (ho : oracle attempt = .ok raw) (hp : parse raw = .ok d) :
    coreLoop (some parse) operation_name oracle max_retries (fuel + 1) attempt lm ls =
      (.success (.parsed d), ⟨1, []⟩) := by
  rw [coreLoop, ho]
  dsimp only
  rw [hp]

theorem coreLoop_fail_step {α : Type} (response_schema : Option (String → Except String α))
    (operation_name : String) (oracle : Nat → AttemptResult) (max_retries fuel attempt : Nat)
    (lm : String) (ls : Option Nat) (e : GeminiException)
    (ho : oracle attempt = .exn e)
    (hcond : ¬(is_retryable (inferStatus e) e.msg = true ∧ attempt < max_retries)) :
    coreLoop response_schema operation_name oracle max_retries (fuel + 1) attempt lm ls =
      (.failure ⟨.LLM_UNAVAILABLE,
        "LLM service unavailable after retries (e.g., 503 Model overloaded). Please try again later.",
        inferStatus e, e.msg⟩, ⟨1, []⟩) := by
  rw [coreLoop, ho]
  dsimp only
  rw [if_neg hcond]

theorem coreLoop_calls_le {α : Type} (response_schema : Option (String → Except String α))
    (operation_name : String) (oracle : Nat → AttemptResult) (max_retries : Nat) :
    ∀ (fuel attempt : Nat) (lm : String) (ls : Option Nat),
      (coreLoop response_schema operation_name oracle max_retries fuel attempt lm ls).2.calls
        ≤ fuel := by
  intro fuel
  induction fuel with
  | zero =>
      intro attempt lm ls
      rw [coreLoop]
  | succ fuel ih =>
      intro attempt lm ls
      rw [coreLoop]
      cases ho : oracle attempt with
      | ok raw_text =>
          cases response_schema with
          | some parse =>
              cases hp : parse raw_text with
              | ok d => simp [hp]
              | error err => simp [hp]
          | none => simp
      | exn e =>
          dsimp only
          by_cases hc : is_retryable (inferStatus e) e.msg = true ∧ attempt < max_retries
          · rw [if_pos hc]
            have := ih (attempt + 1) e.msg (inferStatus e)
            dsimp only
            omega
          · rw [if_neg hc]
            simp

/-- C2: `execute` makes at most `MAX_RETRIES + 1 = 4` SDK attempts for any
request, and for a 503 transport error on attempts 1 and 2 followed by a
successful parse on attempt 3 it returns `Success` after sleeping exactly
1 second and then 2 seconds (backoff `2 ^ attempt`), with 3 SDK calls. -/
theorem C2_backoff_and_attempt_cap {α : Type} (parse : String → Except String α)
    (operation_name : String) (oracle : Nat → AttemptResult) (e : GeminiException)
    (raw : String) (d : α)
    (he : e.status_code = some 503)
    (h0 : oracle 0 = .exn e) (h1 : oracle 1 = .exn e) (h2 : oracle 2 = .ok raw)
    (hp : parse raw = .ok d) :
    (∀ (β : Type) (schema : Option (String → Except String β))
      (orc : Nat → AttemptResult) (c : Bool),
      (call_gemini_core c MAX_LLM_RETRIES schema operation_name orc).2.calls
        ≤ MAX_LLM_RETRIES + 1) ∧
    call_gemini_core true MAX_LLM_RETRIES (some parse) operation_name oracle =
      (.success (.parsed d), ⟨3, [1, 2]⟩) := by
  constructor
  · intro β schema orc c
    cases c with
    | false => rw [call_gemini_core]; simp
    | true =>
        rw [call_gemini_core, if_pos rfl]
        exact coreLoop_calls_le schema operation_name orc MAX_LLM_RETRIES
          (MAX_LLM_RETRIES + 1) 0 "" none
  · have hst : inferStatus e = some 503 := by
      rw [inferStatus, he]
    have hr : is_retryable (inferStatus e) e.msg = true := by
      rw [hst]
      have hc : retryable_codes.contains 503 = true := by decide
      rw [is_retryable, hc]
      rfl
    have s3 := coreLoop_ok_parsed_step parse operation_name oracle 3 1 2
      e.msg (inferStatus e) raw d h2 hp
    have s2 := coreLoop_retry_step (some parse) operation_name oracle 3 2 1
      e.msg (inferStatus e) e h1 hr (by omega)
    have s1 := coreLoop_retry_step (some parse) operation_name oracle 3 3 0
      "" none e h0 hr (by omega)
    norm_num at s1 s2 s3
    rw [s3] at s2
    norm_num at s2
    rw [s2] at s1
    norm_num at s1
    rw [call_gemini_core, if_pos rfl]
    rw [show MAX_LLM_RETRIES + 1 = 4 from rfl, show MAX_LLM_RETRIES = 3 from rfl]
    rw [s1]

/-- C3: an exception is classified retryable iff its status code — the native
field when present, else the one inferred by scanning the message for the
literal codes 429, 500, 502, 503, 504 — lies in the retryable set, or the
lower-cased message contains one of the transient fragments; and a
non-retryable exception on the first attempt yields the service-unavailable
failure after exactly one SDK call, with no sleep. -/
theorem C3_retryable_classification {α : Type} (schema : Option (String → Except String α))
    (operation_name : String) (oracle : Nat → AttemptResult) (e : GeminiException)
    (h0 : oracle 0 = .exn e)
    (hnr : is_retryable (inferStatus e) e.msg = false) :
    (∀ f : GeminiException,
      (is_retryable (inferStatus f) f.msg = true ↔
        (∃ c, inferStatus f = some c ∧ c ∈ retryable_codes) ∨
        (∃ s ∈ retry_strings, strContains (strLower f.msg) s = true))) ∧
    (∀ f : GeminiException, ∀ c, f.status_code = some c → inferStatus f = some c) ∧
    (∀ f : GeminiException, f.status_code = none →
      inferStatus f = retryable_codes.find? (fun c => strContains f.msg (toString c))) ∧
    call_gemini_core true MAX_LLM_RETRIES schema operation_name oracle =
      (.failure ⟨.LLM_UNAVAILABLE,
        "LLM service unavailable after retries (e.g., 503 Model overloaded). Please try again later.",
        inferStatus e, e.msg⟩, ⟨1, []⟩) := by
  refine ⟨?_, ?_, ?_, ?_⟩
  · intro f
    cases hst : inferStatus f with
    | none => simp [is_retryable, hst]
    | some c => simp [is_retryable, hst, retryable_codes]
  · intro f c hc
    rw [inferStatus, hc]
  · intro f hc
    rw [inferStatus, hc]
  · rw [call_gemini_core, if_pos rfl]
    exact coreLoop_fail_step schema operation_name oracle MAX_LLM_RETRIES
      MAX_LLM_RETRIES 0 "" none e h0 (fun hco => by rw [hnr] at hco; exact absurd hco.1 (by simp))

/-- C4: when an SDK call succeeds but its payload fails schema validation,
the loop returns a `PARSE_ERROR` failure immediately — status code fixed at
200, distinct from every retryable transport code and from the
transport-failure kind — carrying the parser diagnostic, after exactly one
SDK call of that attempt and with no sleep, i.e. a parse failure is never
retried. -/
theorem C4_parse_error_never_retried {α : Type} (parse : String → Except String α)
    (operation_name : String) (oracle : Nat → AttemptResult)
    (max_retries fuel attempt : Nat) (lm : String) (ls : Option Nat) (raw err : String)
    (ho : oracle attempt = .ok raw) (hp : parse raw = .error err) :
    coreLoop (some parse) operation_name oracle max_retries (fuel + 1) attempt lm ls =
      (.failure ⟨.PARSE_ERROR, "Failed to parse structured output from " ++ operation_name,
        some 200, err⟩, ⟨1, []⟩) ∧
    (oracle 0 = .ok raw →
      call_gemini_core true max_retries (some parse) operation_name oracle =
        (.failure ⟨.PARSE_ERROR, "Failed to parse structured output from " ++ operation_name,
          some 200, err⟩, ⟨1, []⟩)) ∧
    200 ∉ retryable_codes ∧
    ErrorType.PARSE_ERROR ≠ ErrorType.LLM_UNAVAILABLE ∧
    ErrorType.PARSE_ERROR ≠ ErrorType.CONFIG_ERROR := by
  have hstep : ∀ (fl at2 : Nat) (lm2 : String) (ls2 : Option Nat), oracle at2 = .ok raw →
      coreLoop (some parse) operation_name oracle max_retries (fl + 1) at2 lm2 ls2 =
        (.failure ⟨.PARSE_ERROR, "Failed to parse structured output from " ++ operation_name,
          some 200, err⟩, ⟨1, []⟩) := by
    intro fl at2 lm2 ls2 ho2
    rw [coreLoop, ho2]
    dsimp only
    rw [hp]
  refine ⟨hstep fuel attempt lm ls ho, ?_, by decide, by decide, by decide⟩
  intro h00
  rw [call_gemini_core, if_pos rfl]
  exact hstep max_retries 0 "" none h00

/-- C8 counterexample: a successful response with `is_correct = false` and
`partial_credit = 0.25` — admitted by the pydantic schema, whose bounds are
only `0.0 ≤ x ≤ 1.0` — produces the vote `0.25`, which is outside
`{0.0, 0.5, 1.0}`; the code applies no normalization, and such a vote even
wins the tally when it is the only one. -/
theorem C8_vote_bucket_cex :
    voteOf ⟨"q", "a", "c", false, some (1/4), "fb"⟩ = 1/4 ∧
    ¬(voteOf ⟨"q", "a", "c", false, some (1/4), "fb"⟩ = 0 ∨
      voteOf ⟨"q", "a", "c", false, some (1/4), "fb"⟩ = 1/2 ∨
      voteOf ⟨"q", "a", "c", false, some (1/4), "fb"⟩ = 1) ∧
    consensusVote (.success ⟨"q", "a", "c", false, some (1/4), "fb"⟩)
        (.failure ⟨.LLM_UNAVAILABLE, "m", none, "r"⟩)
        (.failure ⟨.LLM_UNAVAILABLE, "m", none, "r"⟩) =
      .success ⟨"q", "a", "c", false, some (1/4), "fb"⟩ := by
  refine ⟨rfl, by norm_num [voteOf], ?_⟩
  unfold consensusVote
  dsimp only
  simp [validResponses, mostCommon1, counterKeys, insertKey, maxByCount, List.find?]

/-- C8 amended: the vote bucket is 1.0 when the correctness flag is set, else
the partial-credit value when present, else 0.0; under the schema bounds
(`0 ≤ partial_credit ≤ 1`) every vote lies in the interval [0, 1], and the
vote lies in `{0.0, 0.5, 1.0}` exactly when any present partial-credit value
does — the code itself performs no bucket normalization. -/
theorem C8_vote_formula_and_range (resp : EvalDetail)
    (hpc : ∀ pc, resp.partial_credit = some pc → 0 ≤ pc ∧ pc ≤ 1) :
    (resp.is_correct = true → voteOf resp = 1) ∧
    (resp.is_correct = false → ∀ pc, resp.partial_credit = some pc → voteOf resp = pc) ∧
    (resp.is_correct = false → resp.partial_credit = none → voteOf resp = 0) ∧
    (0 ≤ voteOf resp ∧ voteOf resp ≤ 1) ∧
    ((∀ pc, resp.partial_credit = some pc → pc = 0 ∨ pc = 1/2 ∨ pc = 1) →
      voteOf resp = 0 ∨ voteOf resp = 1/2 ∨ voteOf resp = 1) := by
  refine ⟨?_, ?_, ?_, ?_, ?_⟩
  · intro h
    simp [voteOf, h]
  · intro h pc hsome
    simp [voteOf, h, hsome]
  · intro h hnone
    simp [voteOf, h, hnone]
  · cases hic : resp.is_correct with
    | true => simp [voteOf, hic]
    | false =>
        cases hsome : resp.partial_credit with
        | none => simp [voteOf, hic, hsome]
        | some pc =>
            have := hpc pc hsome
            simp only [voteOf, hic, hsome]
            simpa using this
  · intro hall
    cases hic : resp.is_correct with
    | true => simp [voteOf, hic]
    | false =>
        cases hsome : resp.partial_credit with
        | none => simp [voteOf, hic, hsome]
        | some pc =>
            have := hall pc hsome
            simp only [voteOf, hic, hsome]
            simpa using this

/-- C8 amended witness: a partially-correct response with partial credit 0.5
votes 0.5, within range and within the buckets. -/
theorem C8_vote_formula_and_range_witness :
    voteOf respHalfD = 1/2 ∧ (0 ≤ voteOf respHalfD ∧ voteOf respHalfD ≤ 1) ∧
    (voteOf respHalfD = 0 ∨ voteOf respHalfD = 1/2 ∨ voteOf respHalfD = 1) := by
  have hpc : ∀ pc, respHalfD.partial_credit = some pc → 0 ≤ pc ∧ pc ≤ 1 := by
    intro pc h
    rw [show respHalfD.partial_credit = some (1/2) from rfl] at h
    injection h with h
    rw [← h]
    norm_num
  have h := C8_vote_formula_and_range respHalfD hpc
  refine ⟨h.2.1 rfl (1/2) rfl, h.2.2.2.1, h.2.2.2.2 ?_⟩
  intro pc hsome
  rw [show respHalfD.partial_credit = some (1/2) from rfl] at hsome
  injection hsome with hsome
  rw [← hsome]
  norm_num

/-- C9: `evaluate_one_qa` pins the shared default model to the fixed
evaluation model for the duration of the consensus block — the gathered
calls observe the pinned model — and the finally clause restores the
original model identifier on every outcome path: consensus result computed,
or an exception propagating out of the block. -/
theorem C9_model_override_restored (ε : Type) (svc : GeminiService)
    (gathered : GeminiService →
      Except ε (CoreResult EvalDetail × CoreResult EvalDetail × CoreResult EvalDetail)) :
    (evaluate_one_qa ε svc gathered).2.model = svc.model ∧
    (evaluate_one_qa ε svc gathered).2.api_key = svc.api_key ∧
    ({ svc with model := model_to_use } : GeminiService).model = model_to_use ∧
    (∀ e, gathered { svc with model := model_to_use } = .error e →
      (evaluate_one_qa ε svc gathered).1 = .error e) ∧
    (∀ t, gathered { svc with model := model_to_use } = .ok t →
      (evaluate_one_qa ε svc gathered).1 = .ok (consensusVote t.1 t.2.1 t.2.2)) := by
  refine ⟨rfl, rfl, rfl, ?_, ?_⟩
  · intro e he
    unfold evaluate_one_qa
    dsimp only
    rw [he]
  · intro t ht
    obtain ⟨a, b, c⟩ := t
    unfold evaluate_one_qa
    dsimp only
    rw [ht]

/-- C9 witness: with an exception propagating out of the consensus block, the
propagated error is returned and the original model identifier is restored. -/
theorem C9_model_override_restored_witness :
    ((evaluate_one_qa String ⟨"k", "custom-model", 3⟩ (fun _ => .error "boom")).2.model
      = "custom-model") ∧
    ((evaluate_one_qa String ⟨"k", "custom-model", 3⟩ (fun _ => .error "boom")).1
      = .error "boom") :=
  ⟨(C9_model_override_restored String ⟨"k", "custom-model", 3⟩ (fun _ => .error "boom")).1,
   (C9_model_override_restored String ⟨"k", "custom-model", 3⟩
      (fun _ => .error "boom")).2.2.2.1 "boom" rfl⟩

/-- C1 witness: with simulated votes `[1.0, 1.0, 0.0]` the winner is `1.0`
and the chosen response is the first of the two vote-1.0 responses. -/
theorem C1_first_matching_winner_witness :
    (validResponses [.success respCorrectA, .success respCorrectB, .success respWrongC] ≠ []) ∧
    ∃ w resp pre post,
      mostCommon1 ((validResponses [.success respCorrectA, .success respCorrectB,
        .success respWrongC]).map voteOf) = some w ∧
      consensusVote (.success respCorrectA) (.success respCorrectB) (.success respWrongC) =
        .success resp ∧
      voteOf resp = w ∧
      validResponses [.success respCorrectA, .success respCorrectB, .success respWrongC] =
        pre ++ resp :: post ∧
      ∀ x ∈ pre, voteOf x ≠ w :=
  ⟨by decide, C1_first_matching_winner (.success respCorrectA) (.success respCorrectB)
    (.success respWrongC) (by decide)⟩

/-- C10 witness: with one failure and two successes the selection loop finds
a matching response and the fallback branch is not taken. -/
theorem C10_fallback_unreachable_witness :
    (validResponses [.failure ⟨.LLM_UNAVAILABLE, "m", none, "r"⟩, .success respHalfD,
      .success respWrongC] ≠ []) ∧
    ∃ w resp,
      mostCommon1 ((validResponses [.failure ⟨.LLM_UNAVAILABLE, "m", none, "r"⟩,
        .success respHalfD, .success respWrongC]).map voteOf) = some w ∧
      (validResponses [.failure ⟨.LLM_UNAVAILABLE, "m", none, "r"⟩, .success respHalfD,
        .success respWrongC]).find? (fun r => voteOf r = w) = some resp ∧
      consensusVote (.failure ⟨.LLM_UNAVAILABLE, "m", none, "r"⟩) (.success respHalfD)
        (.success respWrongC) = .success resp ∧
      resp ∈ validResponses [.failure ⟨.LLM_UNAVAILABLE, "m", none, "r"⟩, .success respHalfD,
        .success respWrongC] :=
  ⟨by decide, C10_fallback_unreachable (.failure ⟨.LLM_UNAVAILABLE, "m", none, "r"⟩)
    (.success respHalfD) (.success respWrongC) (by decide)⟩

/-- C2 witness: 503 exceptions on the first two attempts, success on the
third: the result is the parsed success after sleeps of 1 and 2 seconds. -/
theorem C2_backoff_and_attempt_cap_witness :
    (∀ (β : Type) (schema : Option (String → Except String β))
      (orc : Nat → AttemptResult) (c : Bool),
      (call_gemini_core c MAX_LLM_RETRIES schema "op" orc).2.calls
        ≤ MAX_LLM_RETRIES + 1) ∧
    call_gemini_core true MAX_LLM_RETRIES (some sampleParse) "op" sampleOracle503 =
      (.success (.parsed respCorrectA), ⟨3, [1, 2]⟩) :=
  C2_backoff_and_attempt_cap sampleParse "op" sampleOracle503 exn503 "good" respCorrectA
    rfl rfl rfl rfl rfl

/-- C3 witness: a native 400 with message "400 INVALID_ARGUMENT" is not
retryable and the loop fails after exactly one call with no sleep. -/
theorem C3_retryable_classification_witness :
    (∀ f : GeminiException,
      (is_retryable (inferStatus f) f.msg = true ↔
        (∃ c, inferStatus f = some c ∧ c ∈ retryable_codes) ∨
        (∃ s ∈ retry_strings, strContains (strLower f.msg) s = true))) ∧
    (∀ f : GeminiException, ∀ c, f.status_code = some c → inferStatus f = some c) ∧
    (∀ f : GeminiException, f.status_code = none →
      inferStatus f = retryable_codes.find? (fun c => strContains f.msg (toString c))) ∧
    call_gemini_core true MAX_LLM_RETRIES (none : Option (String → Except String EvalDetail))
        "op" (fun _ => .exn exn400) =
      (.failure ⟨.LLM_UNAVAILABLE,
        "LLM service unavailable after retries (e.g., 503 Model overloaded). Please try again later.",
        inferStatus exn400, exn400.msg⟩, ⟨1, []⟩) :=
  C3_retryable_classification (none : Option (String → Except String EvalDetail)) "op"
    (fun _ => .exn exn400) exn400 rfl (by decide)

/-- C4 witness: a transport-successful call whose payload fails validation
yields the parse failure with status 200 after one call and no sleep. -/
theorem C4_parse_error_never_retried_witness :
    (coreLoop (some sampleParse) "op" sampleOracleJunk 3 4 0 "" none =
      (.failure ⟨.PARSE_ERROR, "Failed to parse structured output from " ++ "op",
        some 200, "schema mismatch"⟩, ⟨1, []⟩)) ∧
    (call_gemini_core true 3 (some sampleParse) "op" sampleOracleJunk =
      (.failure ⟨.PARSE_ERROR, "Failed to parse structured output from " ++ "op",
        some 200, "schema mismatch"⟩, ⟨1, []⟩)) ∧
    200 ∉ retryable_codes :=
  ⟨(C4_parse_error_never_retried sampleParse "op" sampleOracleJunk 3 3 0 "" none
      "junk" "schema mismatch" rfl rfl).1,
   (C4_parse_error_never_retried sampleParse "op" sampleOracleJunk 3 3 0 "" none
      "junk" "schema mismatch" rfl rfl).2.1 rfl,
   (C4_parse_error_never_retried sampleParse "op" sampleOracleJunk 3 3 0 "" none
      "junk" "schema mismatch" rfl rfl).2.2.1⟩
